import Mathlib

/-!
Verification of the core dispatch engine of the `rhttp` routing framework
(crate `core`, files `route.rs`, `handler.rs`, `response.rs`, `server.rs`).

Strings are embedded as `List Char` so that the character-level parsing
loops of the source can be modelled faithfully.  Rust `usize` underflow in
`slash_counter - 1` (which panics in a debug build) is modelled by an
`Option` result: `none` means the parsing loop panicked.  Rust
`anyhow::Result` is modelled by `Except String`.
-/

namespace Rhttp

/-- Result of Rust `str::split('/')`: the list of `/`-separated chunks,
including empty chunks at the ends.  `splitSlash "".data = [[]]`,
`splitSlash "/".data = [[], []]`. -/
def splitSlash : List Char → List (List Char)
  | [] => [[]]
  | c :: rest =>
    if c = '/' then [] :: splitSlash rest
    else
      match splitSlash rest with
      | [] => [[c]]
      | s :: ss => (c :: s) :: ss

/-- Test from `Route::should_fire_on_path`: a route segment is treated as a
placeholder when it starts with a `<` character and ends with a `>`
character (`r.starts_with('<') && r.ends_with('>')`). -/
def isPlaceholderSeg (r : List Char) : Bool :=
  (r.head? == some '<') && (r.getLast? == some '>')

/-- Loop body of `Route::should_fire_on_path` (`src/core/src/route.rs`,
lines 290-306): the path segments drive the iteration; a pair fails when
the segments differ and the route segment is not a placeholder; when the
path is exhausted, remaining route segments mean no match. -/
def matchSegs : List (List Char) → List (List Char) → Bool
  | [], routeSegs => routeSegs.isEmpty
  | _ :: _, [] => false
  | p :: ps, r :: rs =>
    if p ≠ r ∧ ¬ isPlaceholderSeg r then false else matchSegs ps rs

/-- Embedding of `Route::should_fire_on_path` (`src/core/src/route.rs`,
lines 285-307): split the request path and the registered pattern
(`metadata.origin`) on `/` and walk them pairwise. -/
def should_fire_on_path (origin path : List Char) : Bool :=
  matchSegs (splitSlash path) (splitSlash origin)

/-- Error message raised by `parse_param_segments` when a `<` is never
closed (`bail!("Invalid url - param segment not closed")`). -/
def msgNotClosed : String := "Invalid url - param segment not closed"

/-- Local state of the `for c in value.chars()` loop of
`parse_param_segments` (`src/core/src/route.rs`, lines 345-380).  The
`HashMap<usize, usize>` is modelled as the association list of inserted
pairs; its keys (`found`) are strictly increasing, so no insertion ever
overwrites an earlier one. -/
structure PpsState where
  param_segments : List (Nat × Nat)
  segment : List Char
  beginning_found : Bool
  slash_counter : Nat
  found : Nat
  deriving Repr, DecidableEq

/-- Character loop of `parse_param_segments`.  `none` models the panic of
the debug-build subtraction `slash_counter - 1` when `slash_counter = 0`
(usize underflow). -/
def ppsLoop : List Char → PpsState → Option PpsState
  | [], st => some st
  | c :: cs, st =>
    if c = '/' then
      ppsLoop cs { st with slash_counter := st.slash_counter + 1 }
    else if c = '<' then
      ppsLoop cs { st with beginning_found := true }
    else if c = '>' then
      if st.slash_counter = 0 then none
      else
        ppsLoop cs
          { st with
            beginning_found := false
            param_segments :=
              st.param_segments ++ [(st.found, st.slash_counter - 1)]
            segment := []
            found := st.found + 1 }
    else
      ppsLoop cs
        (if st.beginning_found then { st with segment := st.segment ++ [c] }
         else st)

/-- Initial loop state of `parse_param_segments`. -/
def ppsInit : PpsState := ⟨[], [], false, 0, 0⟩

/-- Embedding of `parse_param_segments` (`src/core/src/route.rs`,
lines 345-380).  `none` models a panic (usize underflow in the debug
build); `some (Except.error _)` models the `bail!` for an unclosed
placeholder; `some (Except.ok m)` returns the computed ordinal map. -/
def parse_param_segments (value : List Char) :
    Option (Except String (List (Nat × Nat))) :=
  match ppsLoop value ppsInit with
  | none => none
  | some st =>
    some
      (if st.beginning_found then Except.error msgNotClosed
       else Except.ok st.param_segments)

/-- Embedding of `RouteMetadata` (`src/core/src/route.rs`, lines 323-332). -/
structure RouteMetadata where
  origin : List Char
  param_segments : List (Nat × Nat)

/-- Embedding of `RouteMetadata::try_from` (`src/core/src/route.rs`,
lines 334-343). -/
def RouteMetadata.tryFrom (value : List Char) :
    Option (Except String RouteMetadata) :=
  match parse_param_segments value with
  | none => none
  | some (Except.error e) => some (Except.error e)
  | some (Except.ok m) => some (Except.ok ⟨value, m⟩)

/-- Registration outcome of `Router::register_path` (`src/core/src/route.rs`,
lines 69-82): `Route::new` propagates the metadata error and
`.expect("tried to register invalid GET route")` turns it into a panic, so
a malformed pattern aborts startup.  `none` covers both the parser panic
and the `expect` panic. -/
def register_path (pattern : List Char) : Option RouteMetadata :=
  match RouteMetadata.tryFrom pattern with
  | none => none
  | some (Except.error _) => none
  | some (Except.ok m) => some m

/-- Final value of `beginning_found` after scanning the characters `cs`
starting from the flag value `b`: `<` sets it, `>` clears it, everything
else leaves it alone. -/
def bfEnd : List Char → Bool → Bool
  | [], b => b
  | c :: cs, b =>
    if c = '/' then bfEnd cs b
    else if c = '<' then bfEnd cs true
    else if c = '>' then bfEnd cs false
    else bfEnd cs b

/-- Claim-side reading of an unterminated placeholder: some `<` in the
string has no `>` anywhere after it. -/
def hasUnterminated : List Char → Bool
  | [] => false
  | c :: cs => (c == '<' && !(cs.contains '>')) || hasUnterminated cs

/-- Check that no `>` occurs before the first `/` of the string (the
condition under which the `slash_counter - 1` subtraction cannot
underflow). -/
def noEarlyGt : List Char → Bool
  | [] => true
  | c :: cs =>
    if c = '/' then true
    else if c = '>' then false
    else noEarlyGt cs

/-- Check that some `>` occurs before the first `/` of the string. -/
def earlyGt : List Char → Bool
  | [] => false
  | c :: cs =>
    if c = '/' then false
    else if c = '>' then true
    else earlyGt cs

/-- Check that a character is none of the three structural characters of a
route pattern. -/
def plainChar (c : Char) : Bool := c ≠ '/' && c ≠ '<' && c ≠ '>'

/-- Description of one well-formed pattern segment: either a literal made
of plain characters, or a single `<name>` placeholder whose name is made
of plain characters. -/
inductive SegSpec where
  | lit (s : List Char)
  | param (name : List Char)
  deriving Repr

/-- Characters of a described segment. -/
def segOfSpec : SegSpec → List Char
  | SegSpec.lit s => s
  | SegSpec.param name => '<' :: (name ++ ['>'])

/-- Well-formedness of a segment description. -/
def specOk : SegSpec → Bool
  | SegSpec.lit s => s.all plainChar
  | SegSpec.param name => name.all plainChar

/-- Pattern string built from a list of segments: a leading `/` before
each segment, so `[lit "a", param "x"]` yields `"/a/<x>"`. -/
def joinSegs : List (List Char) → List Char
  | [] => []
  | s :: rest => '/' :: (s ++ joinSegs rest)

/-- Pattern string described by a list of segment descriptions. -/
def mkPattern (specs : List SegSpec) : List Char :=
  joinSegs (specs.map segOfSpec)

/-- Map required by the specification, written from its words: the Kth
placeholder encountered left-to-right (K = 0, 1, 2, …) is sent to the
segment offset of that placeholder, where offsets count `/`-delimited
segments after the leading `/`.  `off` is the offset of the first listed
segment and `k` the ordinal of the next placeholder. -/
def claimOffsets : List SegSpec → Nat → Nat → List (Nat × Nat)
  | [], _, _ => []
  | SegSpec.lit _ :: rest, off, k => claimOffsets rest (off + 1) k
  | SegSpec.param _ :: rest, off, k =>
    (k, off) :: claimOffsets rest (off + 1) (k + 1)

/-- ParamOrdinalMap of the specification: ordinal of each placeholder
mapped to its segment offset, depending on the pattern alone. -/
def paramOrdinalMap (specs : List SegSpec) : List (Nat × Nat) :=
  claimOffsets specs 0 0

/-- Example pattern description for `"/test/<param1>/<param2>"`. -/
def specsEx : List SegSpec :=
  [SegSpec.lit ("test".toList), SegSpec.param ("param1".toList),
    SegSpec.param ("param2".toList)]

/-- Pattern `"/a>b"`: a stray `>` with no opening `<`. -/
def patStray : List Char := "/a>b".toList

/-- Pattern `"<x>"`: a closed placeholder but no leading `/`. -/
def patNoSlash : List Char := "<x>".toList

/-- Pattern `"/a/<x"`: an unterminated placeholder. -/
def patUnterminated : List Char := "/a/<x".toList

/-- Embedding of `ProtocolVersion` (`src/core/src/http.rs`; the enum is
kept in the source as commented-out code that `response.rs` refers to). -/
inductive ProtocolVersion where
  | HTTP10
  | HTTP11
  | HTTP2
  | HTTP3
  deriving Repr, DecidableEq

/-- Embedding of `Status` (`src/core/src/http.rs`). -/
inductive Status where
  | Ok
  | Created
  | BadRequest
  | Forbidden
  | NotFound
  | InternalServerError
  deriving Repr, DecidableEq

/-- Embedding of `Status::get_code_message` (`src/core/src/http.rs`). -/
def Status.get_code_message : Status → Nat × String
  | Status.Ok => (200, "OK")
  | Status.Created => (201, "Created")
  | Status.BadRequest => (400, "Bad Request")
  | Status.Forbidden => (403, "Forbidden")
  | Status.NotFound => (404, "Not Found")
  | Status.InternalServerError => (500, "Internal Server Error")

/-- Embedding of `Response` (`src/core/src/response.rs`, lines 125-138);
the header `HashMap<String, String>` is modelled as an association list. -/
structure Response where
  protocol : ProtocolVersion
  status : Status
  headers : List (String × String)
  body : Option String
  deriving Repr, DecidableEq

/-- Embedding of `Response::default` (`src/core/src/response.rs`,
lines 146-155): HTTP/1.1, status 200 OK, no headers, empty body. -/
def Response.default : Response :=
  ⟨ProtocolVersion.HTTP11, Status.Ok, [], none⟩

/-- Numeric status code of a response, via `Status::get_code_message`. -/
def statusCode (r : Response) : Nat := (Status.get_code_message r.status).1

/-- Embedding of `Response::build` / `ResponseBuilder::default`: the
builder starts from the default response. -/
def Response.build : Response := Response.default

/-- Embedding of `ResponseBuilder::status`. -/
def builderStatus (b : Response) (s : Status) : Response := { b with status := s }

/-- Embedding of `ResponseBuilder::body`. -/
def builderBody (b : Response) (body : String) : Response :=
  { b with body := some body }

/-- Embedding of `ResponseBuilder::header`. -/
def builderHeader (b : Response) (k v : String) : Response :=
  { b with headers := b.headers ++ [(k, v)] }

/-- Embedding of `ResponseBuilder::finalize`: returns the built response. -/
def builderFinalize (b : Response) : Response := b

/-- Embedding of `Method` (hyper's method restricted to the verbs the
router registers: `get/post/put/delete`). -/
inductive Method where
  | GET
  | POST
  | PUT
  | DELETE
  deriving Repr, DecidableEq

/-- Display name of a method, used in the router's error message. -/
def methodName : Method → String
  | Method.GET => "GET"
  | Method.POST => "POST"
  | Method.PUT => "PUT"
  | Method.DELETE => "DELETE"

/-- Embedding of `hyper::Request<Body>` as the dispatch engine sees it:
method, URI path, the `param_segments` extension slot that `Router::call`
fills from the matched route's metadata, headers and body. -/
structure Request where
  method : Method
  path : List Char
  param_segments : List (Nat × Nat)
  headers : List (String × String)
  body : Option String
  deriving Repr, DecidableEq

/-- Embedding of the `Responder` impl for `()`
(`src/core/src/response.rs`, lines 20-24). -/
def respond_to_unit (_req : Request) : Except String Response :=
  Except.ok Response.default

/-- Embedding of the `Responder` impl for `Response`
(`src/core/src/response.rs`, lines 27-31). -/
def respond_to_response (self : Response) (_req : Request) :
    Except String Response :=
  Except.ok self

/-- Embedding of the `Responder` impls for `&str` and `String`
(`src/core/src/response.rs`, lines 43-47 and 59-63): both build the
default response with the value as body. -/
def respond_to_str (self : String) (_req : Request) :
    Except String Response :=
  Except.ok (builderFinalize (builderBody Response.build self))

/-- Modelled from the spec: the source under `src/` has no `Responder`
impl for integers; §4.3 requires integer → stringified body, status 200. -/
def respond_to_int (self : Int) (_req : Request) : Except String Response :=
  Except.ok (builderFinalize (builderBody Response.build (toString self)))

/-- Modelled from the spec: the source under `src/` has no `Responder`
impl for booleans; §4.3 requires boolean → stringified body, status 200. -/
def respond_to_bool (self : Bool) (_req : Request) : Except String Response :=
  Except.ok (builderFinalize (builderBody Response.build (toString self)))

/-- Embedding of the `Responder` impl for `anyhow::Result<T>`
(`src/core/src/response.rs`, lines 65-78): `Ok` delegates to the inner
responder (propagating its error), `Err` builds a 500 response whose body
is the error's display text. -/
def respond_to_result {α : Type}
    (inner : α → Request → Except String Response)
    (self : Except String α) (req : Request) : Except String Response :=
  match self with
  | Except.ok r => inner r req
  | Except.error e =>
    Except.ok
      (builderFinalize
        (builderBody (builderStatus Response.build Status.InternalServerError)
          e))

/-- Embedding of the `Middleware` trait (`src/core/src/middleware.rs`):
`on_request` may rewrite the request (Rust mutates it through `&mut`),
`on_response` may rewrite the response; either hook may fail with an
`anyhow` error, modelled as `Except String`. -/
structure Middleware where
  on_request : Request → Except String Request
  on_response : Response → Except String Response

/-- Ghost trace events recording which hook or handler ran, in order;
hooks are identified by their index in the route's middleware list.  This
is the instrumented-middleware observation of the specification's
Scenario E. -/
inductive Event where
  | hookReq (i : Nat)
  | handlerRun
  | hookResp (i : Nat)
  deriving Repr, DecidableEq

/-- Loop `for m in &self.middlewares { m.on_request(&mut request)?; }` of
`Route::fire`, with a trace of the hooks that were invoked; `i` is the
index of the first middleware of `ms` in the route's list.  The `?`
aborts the loop at the first failing hook. -/
def onRequestPhase : List Middleware → Request → Nat →
    Except String Request × List Event
  | [], req, _ => (Except.ok req, [])
  | m :: ms, req, i =>
    match m.on_request req with
    | Except.error e => (Except.error e, [Event.hookReq i])
    | Except.ok req2 =>
      let p := onRequestPhase ms req2 (i + 1)
      (p.1, Event.hookReq i :: p.2)

/-- Loop `for m in &self.middlewares { m.on_response(&mut response)?; }`
of `Route::fire`, with a trace of the hooks that were invoked. -/
def onResponsePhase : List Middleware → Response → Nat →
    Except String Response × List Event
  | [], resp, _ => (Except.ok resp, [])
  | m :: ms, resp, i =>
    match m.on_response resp with
    | Except.error e => (Except.error e, [Event.hookResp i])
    | Except.ok resp2 =>
      let p := onResponsePhase ms resp2 (i + 1)
      (p.1, Event.hookResp i :: p.2)

/-- Result of chaining the `on_response` hooks, in list order, over a
response. -/
def applyResponseChain : List Middleware → Response → Except String Response
  | [], resp => Except.ok resp
  | m :: ms, resp =>
    match m.on_response resp with
    | Except.error e => Except.error e
    | Except.ok resp2 => applyResponseChain ms resp2

/-- Errors surfaced by `Router::call` (`src/core/src/route.rs`,
lines 29-44): the two terminal routing errors are the `context` messages
of the two lookups, and a failing middleware hook propagates through the
`?` in `Route::fire`.  The `anyhow` error chain is modelled by
provenance-tagged constructors. -/
inductive DispatchError where
  | noRouteForMethod (m : Method)
  | noMatchingRoute
  | middlewareError (e : String)
  deriving Repr, DecidableEq

/-- Display text of a dispatch error (the `err.to_string()` the router's
`Service` impl puts in the 500 response body). -/
def renderDispatchError : DispatchError → String
  | DispatchError.noRouteForMethod m =>
    "not registered routes for " ++ methodName m ++ " method"
  | DispatchError.noMatchingRoute => "no matching route"
  | DispatchError.middlewareError e => e

/-- Embedding of `Route` (`src/core/src/route.rs`, lines 250-259): the
type-erased service is a function from request to response, plus the
pattern metadata and the per-route middleware list. -/
structure Route where
  metadata : RouteMetadata
  middlewares : List Middleware
  service : Request → Response

/-- Embedding of `Route::fire` (`src/core/src/route.rs`, lines 309-321):
run every `on_request` hook in order, call the boxed service once, run
every `on_response` hook in order; a failing hook aborts through `?`. -/
def Route.fire (route : Route) (req : Request) :
    Except DispatchError Response × List Event :=
  match onRequestPhase route.middlewares req 0 with
  | (Except.error e, tr) => (Except.error (DispatchError.middlewareError e), tr)
  | (Except.ok req2, tr) =>
    match onResponsePhase route.middlewares (route.service req2) 0 with
    | (Except.error e, tr2) =>
      (Except.error (DispatchError.middlewareError e),
        tr ++ Event.handlerRun :: tr2)
    | (Except.ok resp2, tr2) => (Except.ok resp2, tr ++ Event.handlerRun :: tr2)

/-- Linear scan `bucket.iter().find(|route| route.should_fire_on_path(..))`
of `Router::call`. -/
def selectRoute (bucket : List Route) (path : List Char) : Option Route :=
  bucket.find? (fun route => should_fire_on_path route.metadata.origin path)

/-- Embedding of `Router` (`src/core/src/route.rs`, lines 11-20): the
route table maps a method to its bucket (`HashMap<Method, Vec<Route>>`). -/
structure Router where
  routes : Method → Option (List Route)

/-- Embedding of `Router::call` (`src/core/src/route.rs`, lines 29-44):
look up the method bucket (`context` error when absent), linearly scan it
for the first matching route (`context` error when none), store the
route's `param_segments` in the request extensions, then `Route::fire`. -/
def Router.call (router : Router) (req : Request) :
    Except DispatchError Response × List Event :=
  match router.routes req.method with
  | none => (Except.error (DispatchError.noRouteForMethod req.method), [])
  | some bucket =>
    match selectRoute bucket req.path with
    | none => (Except.error DispatchError.noMatchingRoute, [])
    | some route =>
      Route.fire route { req with param_segments := route.metadata.param_segments }

/-- Response the router's `Service` impl builds for a dispatch error
(`src/core/src/route.rs`, lines 113-123): status 500, body the error
text. -/
def errorResponse (e : DispatchError) : Response :=
  ⟨ProtocolVersion.HTTP11, Status.InternalServerError, [],
    some (renderDispatchError e)⟩

/-- Error-to-response wrapping of `impl Service for Router`
(`src/core/src/route.rs`, lines 113-123). -/
def serviceWrap (p : Except DispatchError Response × List Event) :
    Response × List Event :=
  (match p.1 with
   | Except.ok resp => resp
   | Except.error e => errorResponse e,
    p.2)

/-- Embedding of `Service::call` for `Router`: dispatch, then turn an
error into the generic 500 response. -/
def Router.serviceCall (router : Router) (req : Request) :
    Response × List Event :=
  serviceWrap (Router.call router req)

/-- Embedding of the `handle` method generated by
`implement_handler_trait!` (`src/core/src/handler.rs`, lines 92-107) at
arity one (the shape is identical at every arity): each extractor result
is `.unwrap()`ed — a failing extractor panics, modelled as `none` — and
only a failure of the responder conversion is caught and replaced by
`Response::default()`. -/
def handler_handle {Q R : Type} (from_request : Request → Except String Q)
    (handler : Q → R) (into_response : R → Except String Response)
    (request : Request) : Option Response :=
  match from_request request with
  | Except.error _ => none
  | Except.ok q =>
    match into_response (handler q) with
    | Except.ok response => some response
    | Except.error _ => some Response.default

/-- Pattern `"/a/<x>/b"` from the claim's examples. -/
def patC1 : List Char := "/a/<x>/b".toList

/-- Path `"/a/1/b"`. -/
def pathMatch : List Char := "/a/1/b".toList

/-- Path `"/a/b"`. -/
def pathShort : List Char := "/a/b".toList

/-- Path `"/a/1/b/c"`. -/
def pathLong : List Char := "/a/1/b/c".toList

/-- Path `"/a//b"`, whose middle segment is empty. -/
def pathEmptySeg : List Char := "/a//b".toList

/-- Matching relation written from the claim's words: equal segment
counts, every literal pattern segment equal to the corresponding path
segment, and every placeholder segment corresponding to a non-empty path
segment. -/
def matchesSpecC1 (origin path : List Char) : Bool :=
  ((splitSlash origin).length == (splitSlash path).length) &&
    ((splitSlash path).zip (splitSlash origin)).all
      (fun pr =>
        if isPlaceholderSeg pr.2 then !(pr.1.isEmpty) else pr.1 == pr.2)

/-- Message of a failing header extractor. -/
def msgMissingHeader : String := "header not found"

/-- Sample request for the extraction theorems. -/
def reqEx : Request := ⟨Method.GET, "/".toList, [], [], none⟩

/-- Middleware whose hooks always succeed without changing anything. -/
def mwPass : Middleware :=
  ⟨fun r => Except.ok r, fun resp => Except.ok resp⟩

/-- Error message of the failing sample middleware. -/
def msgBoom : String := "boom"

/-- Middleware whose `on_request` hook fails. -/
def mwFailReq : Middleware :=
  ⟨fun _ => Except.error msgBoom, fun resp => Except.ok resp⟩

/-- Middleware whose `on_response` hook fails. -/
def mwFailResp : Middleware :=
  ⟨fun r => Except.ok r, fun _ => Except.error msgBoom⟩

/-- Route with two passing middlewares. -/
def routeOrderEx : Route :=
  ⟨⟨"/".toList, []⟩, [mwPass, mwPass], fun _ => Response.default⟩

/-- Route whose second middleware fails on the request phase. -/
def routeFailReqEx : Route :=
  ⟨⟨"/".toList, []⟩, [mwPass, mwFailReq], fun _ => Response.default⟩

/-- Route whose second middleware fails on the response phase. -/
def routeFailRespEx : Route :=
  ⟨⟨"/".toList, []⟩, [mwPass, mwFailResp], fun _ => Response.default⟩

/-- Router with an empty route table. -/
def routerEmptyEx : Router := ⟨fun _ => none⟩

/-- Pattern `"><x"`: an unterminated placeholder after a stray `>`. -/
def patEarlyGtUnterminated : List Char := "><x".toList

theorem matchSegs_iff (ps rs : List (List Char)) :
    matchSegs ps rs = true ↔
      ps.length = rs.length ∧
        ∀ pr ∈ ps.zip rs, pr.1 = pr.2 ∨ isPlaceholderSeg pr.2 = true := by
  induction ps generalizing rs with
  | nil =>
    cases rs with
    | nil => simp [matchSegs]
    | cons r rs => simp [matchSegs]
  | cons p ps ih =>
    cases rs with
    | nil => simp [matchSegs]
    | cons r rs =>
      by_cases hpr : p ≠ r ∧ ¬ isPlaceholderSeg r
      · simp only [matchSegs, if_pos hpr]
        constructor
        · intro h; exact absurd h (by simp)
        · rintro ⟨-, hall⟩
          have := hall (p, r) (by simp)
          rcases this with h | h
          · exact absurd h hpr.1
          · exact absurd h (by simpa using hpr.2)
      · simp only [matchSegs, if_neg hpr]
        rw [ih rs]
        push_neg at hpr
        constructor
        · rintro ⟨hlen, hall⟩
          refine ⟨by simp [hlen], ?_⟩
          intro pr hmem
          rcases List.mem_cons.mp (by simpa using hmem) with h | h
          · subst h
            by_cases hp : p = r
            · exact Or.inl hp
            · exact Or.inr (by simpa using hpr hp)
          · exact hall pr h
        · rintro ⟨hlen, hall⟩
          refine ⟨by simpa using hlen, ?_⟩
          intro pr hmem
          exact hall pr (by simp [hmem])

theorem ppsLoop_total (cs : List Char) :
    ∀ st : PpsState, 1 ≤ st.slash_counter ∨ noEarlyGt cs = true →
      ∃ st2, ppsLoop cs st = some st2 ∧
        st2.beginning_found = bfEnd cs st.beginning_found := by
  induction cs with
  | nil => intro st _; exact ⟨st, rfl, rfl⟩
  | cons c cs ih =>
    rintro ⟨m, seg, bf, sc, fd⟩ h
    by_cases hsl : c = '/'
    · subst hsl
      simp only [ppsLoop, bfEnd, if_pos rfl]
      exact ih _ (Or.inl (by simp))
    · by_cases hlt : c = '<'
      · subst hlt
        simp only [ppsLoop, bfEnd, if_neg hsl, if_pos rfl]
        refine ih _ ?_
        rcases h with h | h
        · exact Or.inl h
        · exact Or.inr (by simpa [noEarlyGt] using h)
      · by_cases hgt : c = '>'
        · subst hgt
          have hpos : 1 ≤ sc := by
            rcases h with h | h
            · exact h
            · simp [noEarlyGt] at h
          simp only [ppsLoop, bfEnd, if_neg hsl, if_neg hlt, if_pos rfl,
            if_neg (by omega : ¬ sc = 0)]
          exact ih _ (Or.inl (by simpa using hpos))
        · simp only [ppsLoop, bfEnd, if_neg hsl, if_neg hlt, if_neg hgt]
          have h2 : 1 ≤ sc ∨ noEarlyGt cs = true := by
            rcases h with h | h
            · exact Or.inl (by simpa using h)
            · exact Or.inr (by simpa [noEarlyGt, hsl, hgt] using h)
          cases bf with
          | true => simpa using ih _ h2
          | false => simpa using ih _ h2

theorem bfEnd_iff (cs : List Char) :
    ∀ b : Bool, bfEnd cs b = true ↔
      (hasUnterminated cs = true ∨ (b = true ∧ cs.contains '>' = false)) := by
  induction cs with
  | nil => intro b; simp [bfEnd, hasUnterminated]
  | cons c cs ih =>
    intro b
    by_cases hsl : c = '/'
    · subst hsl
      simp only [bfEnd, if_pos rfl, eq_self_iff_true, if_true,
        hasUnterminated, List.contains_cons]
      rw [ih]
      simp
    · by_cases hlt : c = '<'
      · subst hlt
        simp only [bfEnd, if_neg hsl, if_pos rfl, eq_self_iff_true, if_true,
          hasUnterminated, List.contains_cons]
        rw [ih]
        constructor
        · rintro (h | ⟨-, h⟩)
          · exact Or.inl (by simp [h])
          · exact Or.inl (by rw [h]; rfl)
        · rintro (h | ⟨-, h⟩)
          · rcases Bool.or_eq_true_iff.mp h with h | h
            · exact Or.inr ⟨rfl, by simpa using ((Bool.and_eq_true _ _).mp h).2⟩
            · exact Or.inl h
          · refine Or.inr ⟨rfl, ?_⟩
            by_cases hc : cs.contains '>' = true
            · rw [hc] at h
              simp at h
            · simpa using hc
      · by_cases hgt : c = '>'
        · subst hgt
          simp only [bfEnd, if_neg hsl, if_neg hlt, if_pos rfl,
            eq_self_iff_true, if_true, hasUnterminated, List.contains_cons]
          rw [ih]
          simp
        · simp only [bfEnd, if_neg hsl, if_neg hlt, if_neg hgt,
            hasUnterminated, List.contains_cons]
          rw [ih]
          have h1 : (c == '<') = false := by simpa using hlt
          have h2 : ¬ ('>' = c) := fun h => hgt h.symm
          simp [h1, h2]

theorem ppsLoop_earlyGt (cs : List Char) :
    ∀ st : PpsState, earlyGt cs = true → st.slash_counter = 0 →
      ppsLoop cs st = none := by
  induction cs with
  | nil => intro st h _; simp [earlyGt] at h
  | cons c cs ih =>
    rintro ⟨m, seg, bf, sc, fd⟩ h hsc
    simp only at hsc
    by_cases hsl : c = '/'
    · subst hsl; simp [earlyGt] at h
    · by_cases hlt : c = '<'
      · subst hlt
        simp only [ppsLoop, if_neg hsl, if_pos rfl]
        exact ih _ (by simpa [earlyGt] using h) hsc
      · by_cases hgt : c = '>'
        · subst hgt
          simp [ppsLoop, if_neg hsl, if_neg hlt, hsc]
        · simp only [ppsLoop, if_neg hsl, if_neg hlt, if_neg hgt]
          cases bf with
          | true =>
            simp only [if_pos rfl]
            exact ih _ (by simpa [earlyGt, hsl, hgt] using h) hsc
          | false =>
            simpa using ih _ (by simpa [earlyGt, hsl, hgt] using h) hsc

theorem ppsLoop_plain_skip (s : List Char) :
    ∀ cs (st : PpsState), s.all plainChar = true →
      st.beginning_found = false →
      ppsLoop (s ++ cs) st = ppsLoop cs st := by
  induction s with
  | nil => intro cs st _ _; rfl
  | cons c s ih =>
    rintro cs ⟨m, seg, bf, sc, fd⟩ hall hbf
    simp only at hbf
    subst hbf
    have hc : plainChar c = true := by
      have := List.all_eq_true.mp hall
      exact this c (by simp)
    have hs : s.all plainChar = true := by
      rw [List.all_eq_true] at hall ⊢
      intro x hx
      exact hall x (by simp [hx])
    simp only [plainChar, Bool.and_eq_true, decide_eq_true_eq] at hc
    simp only [List.cons_append, ppsLoop, if_neg hc.1.1, if_neg hc.1.2,
      if_neg hc.2, if_neg (Bool.false_ne_true)]
    exact ih cs _ hs rfl

theorem ppsLoop_name_push (s : List Char) :
    ∀ cs (st : PpsState), s.all plainChar = true →
      st.beginning_found = true →
      ppsLoop (s ++ cs) st
        = ppsLoop cs { st with segment := st.segment ++ s } := by
  induction s with
  | nil => intro cs st _ _; simp
  | cons c s ih =>
    rintro cs ⟨m, seg, bf, sc, fd⟩ hall hbf
    simp only at hbf
    subst hbf
    have hc : plainChar c = true := by
      have := List.all_eq_true.mp hall
      exact this c (by simp)
    have hs : s.all plainChar = true := by
      rw [List.all_eq_true] at hall ⊢
      intro x hx
      exact hall x (by simp [hx])
    simp only [plainChar, Bool.and_eq_true, decide_eq_true_eq] at hc
    simp only [List.cons_append, ppsLoop, if_neg hc.1.1, if_neg hc.1.2,
      if_neg hc.2, if_pos rfl, eq_self_iff_true, if_true, List.append_eq]
    rw [ih cs ⟨m, seg ++ [c], true, sc, fd⟩ hs rfl]
    simp [List.append_assoc]

theorem ppsLoop_step_slash (cs : List Char) (m : List (Nat × Nat))
    (seg : List Char) (bf : Bool) (sc fd : Nat) :
    ppsLoop ('/' :: cs) ⟨m, seg, bf, sc, fd⟩
      = ppsLoop cs ⟨m, seg, bf, sc + 1, fd⟩ := rfl

theorem ppsLoop_step_lt (cs : List Char) (m : List (Nat × Nat))
    (seg : List Char) (bf : Bool) (sc fd : Nat) :
    ppsLoop ('<' :: cs) ⟨m, seg, bf, sc, fd⟩
      = ppsLoop cs ⟨m, seg, true, sc, fd⟩ := rfl

theorem ppsLoop_step_gt (cs : List Char) (m : List (Nat × Nat))
    (seg : List Char) (bf : Bool) (sc fd : Nat) :
    ppsLoop ('>' :: cs) ⟨m, seg, bf, sc + 1, fd⟩
      = ppsLoop cs ⟨m ++ [(fd, sc)], [], false, sc + 1, fd + 1⟩ := rfl

theorem ppsLoop_joinSegs (specs : List SegSpec) :
    ∀ st : PpsState, (∀ sp ∈ specs, specOk sp = true) →
      st.beginning_found = false →
      ∃ st2, ppsLoop (joinSegs (specs.map segOfSpec)) st = some st2 ∧
        st2.param_segments
          = st.param_segments
              ++ claimOffsets specs st.slash_counter st.found ∧
        st2.beginning_found = false := by
  induction specs with
  | nil =>
    intro st _ hbf
    exact ⟨st, rfl, by simp [claimOffsets], hbf⟩
  | cons sp rest ih =>
    rintro ⟨m, seg, bf, sc, fd⟩ hall hbf
    simp only at hbf
    subst hbf
    have hsp : specOk sp = true := hall sp (by simp)
    have hrest : ∀ x ∈ rest, specOk x = true := by
      intro x hx
      exact hall x (by simp [hx])
    cases sp with
    | lit s =>
      have hlist : joinSegs ((SegSpec.lit s :: rest).map segOfSpec)
          = '/' :: (s ++ joinSegs (rest.map segOfSpec)) := by
        simp [joinSegs, segOfSpec]
      rw [hlist, ppsLoop_step_slash,
        ppsLoop_plain_skip s _ ⟨m, seg, false, sc + 1, fd⟩
          (by simpa [specOk] using hsp) rfl]
      rcases ih ⟨m, seg, false, sc + 1, fd⟩ hrest rfl with
        ⟨st2, heq, hpar, hbf2⟩
      exact ⟨st2, heq, by simpa [claimOffsets] using hpar, hbf2⟩
    | param name =>
      have hlist : joinSegs ((SegSpec.param name :: rest).map segOfSpec)
          = '/' :: '<' :: (name ++ ('>' :: joinSegs (rest.map segOfSpec))) := by
        simp [joinSegs, segOfSpec]
      rw [hlist, ppsLoop_step_slash, ppsLoop_step_lt,
        ppsLoop_name_push name _ ⟨m, seg, true, sc + 1, fd⟩
          (by simpa [specOk] using hsp) rfl]
      show ∃ st2, ppsLoop ('>' :: joinSegs (rest.map segOfSpec))
          ⟨m, seg ++ name, true, sc + 1, fd⟩ = some st2 ∧ _
      rw [ppsLoop_step_gt]
      rcases ih ⟨m ++ [(fd, sc)], [], false, sc + 1, fd + 1⟩ hrest rfl with
        ⟨st2, heq, hpar, hbf2⟩
      exact ⟨st2, heq, by simpa [claimOffsets] using hpar, hbf2⟩

/-- C2 (amended): for every pattern made of `/`-prefixed segments, each a
literal without structural characters or a single `<name>` placeholder,
`parse_param_segments` computes exactly the map sending the ordinal K of
the Kth placeholder (left-to-right, from 0) to the segment offset of that
placeholder counted after the leading `/`, and this map depends only on
the pattern.  (The unamended claim fails on patterns containing a `>`
that closes no placeholder; see the counterexample.) -/
theorem parse_param_segments_ordinal_map (specs : List SegSpec)
    (h : ∀ sp ∈ specs, specOk sp = true) :
    parse_param_segments (mkPattern specs)
      = some (Except.ok (paramOrdinalMap specs)) := by
  rcases ppsLoop_joinSegs specs ppsInit h rfl with ⟨st2, heq, hpar, hbf⟩
  unfold parse_param_segments mkPattern
  rw [show joinSegs (List.map segOfSpec specs)
      = joinSegs (specs.map segOfSpec) from rfl, heq]
  simp only [hbf, if_neg (Bool.false_ne_true), hpar, ppsInit,
    paramOrdinalMap]
  rfl

/-- Witness for C2's amended theorem at `"/test/<param1>/<param2>"`: the
computed map is `{0 ↦ 1, 1 ↦ 2}`. -/
theorem parse_param_segments_ordinal_map_witness :
    parse_param_segments (mkPattern specsEx)
      = some (Except.ok [(0, 1), (1, 2)]) := by
  rw [parse_param_segments_ordinal_map specsEx (by decide)]
  rfl

/-- Counterexample to C2 as stated: the pattern `"/a>b"` has every opened
placeholder closed (there is no `<` at all) and contains no placeholder
segment, yet registration-time parsing produces the non-empty map
`{0 ↦ 0}`, because the loop treats every `>` as closing a placeholder. -/
theorem parse_param_segments_stray_gt_counterexample :
    parse_param_segments patStray = some (Except.ok [(0, 0)]) ∧
      ((splitSlash patStray).drop 1).filter (fun s => isPlaceholderSeg s)
        = ([] : List (List Char)) ∧
      ((0, 0) :: ([] : List (Nat × Nat))) ≠ [] := by
  refine ⟨rfl, rfl, by decide⟩

/-- C5 (amended): for every pattern in which no `>` precedes the first `/`
(so the `slash_counter - 1` underflow of C10 cannot fire), parsing never
panics, and it returns the registration error exactly when the pattern
contains an unterminated placeholder (a `<` with no `>` after it); the
error makes `register_path`'s `.expect` abort startup, so it is never
silently dropped. -/
theorem registration_error_iff_unterminated (value : List Char)
    (h : noEarlyGt value = true) :
    parse_param_segments value ≠ none ∧
      (parse_param_segments value = some (Except.error msgNotClosed)
        ↔ hasUnterminated value = true) ∧
      (register_path value = none ↔ hasUnterminated value = true) := by
  rcases ppsLoop_total value ppsInit (Or.inr h) with ⟨st2, heq, hbf⟩
  have hiff : st2.beginning_found = true ↔ hasUnterminated value = true := by
    rw [hbf, bfEnd_iff]
    simp [ppsInit]
  unfold parse_param_segments register_path RouteMetadata.tryFrom
    parse_param_segments
  rw [heq]
  by_cases hb : st2.beginning_found = true
  · simp only [if_pos hb]
    refine ⟨by simp, ?_, ?_⟩
    · simp [hiff.mp hb]
    · simp [hiff.mp hb]
  · simp only [if_neg hb]
    have : ¬ hasUnterminated value = true := fun hh => hb (hiff.mpr hh)
    refine ⟨by simp, ?_, ?_⟩
    · simp [this]
    · simp [this]

/-- Witness for C5's amended theorem at the pattern `"/a/<x"`. -/
theorem registration_error_iff_unterminated_witness :
    noEarlyGt patUnterminated = true ∧
      (parse_param_segments patUnterminated ≠ none ∧
        (parse_param_segments patUnterminated
            = some (Except.error msgNotClosed)
          ↔ hasUnterminated patUnterminated = true) ∧
        (register_path patUnterminated = none
          ↔ hasUnterminated patUnterminated = true)) :=
  ⟨by decide, registration_error_iff_unterminated patUnterminated (by decide)⟩

/-- C10: pattern parsing treats every `>` as closing a placeholder, so for
every pattern whose first `>` comes before the first `/` the loop
evaluates `slash_counter - 1` with `slash_counter = 0` and the debug-build
subtraction panics (modelled as `none`); registration on the pattern
`"<x>"` panics this way even though its placeholder is closed; and for
every pattern beginning with `/` the underflow cannot occur. -/
theorem parse_param_segments_underflow :
    (∀ value : List Char,
        earlyGt value = true → parse_param_segments value = none) ∧
      (∀ cs : List Char, parse_param_segments ('/' :: cs) ≠ none) ∧
      parse_param_segments patNoSlash = none := by
  refine ⟨?_, ?_, rfl⟩
  · intro value hearly
    unfold parse_param_segments
    rw [ppsLoop_earlyGt value ppsInit hearly rfl]
  · intro cs
    have h1 : parse_param_segments ('/' :: cs)
        = (match ppsLoop cs ⟨[], [], false, 1, 0⟩ with
           | none => none
           | some st =>
             some
               (if st.beginning_found then Except.error msgNotClosed
                else Except.ok st.param_segments)) := rfl
    rw [h1]
    rcases ppsLoop_total cs ⟨[], [], false, 1, 0⟩ (Or.inl (by simp)) with
      ⟨st2, heq, -⟩
    rw [heq]
    simp

/-- Witness for C10's theorem: the pattern `"><"` triggers the underflow
panic, and `"/ok"` does not. -/
theorem parse_param_segments_underflow_witness :
    parse_param_segments ('>' :: '<' :: []) = none ∧
      parse_param_segments ('/' :: 'o' :: 'k' :: []) ≠ none :=
  ⟨parse_param_segments_underflow.1 _ (by decide),
    parse_param_segments_underflow.2.1 _⟩

/-- C1 (amended): `should_fire_on_path` succeeds iff the pattern and the
path split into equally many `/`-separated segments and every pattern
segment either equals the corresponding path segment (exactly,
case-sensitively) or is a placeholder — which matches any single path
segment, including the empty one; in particular `"/a/<x>/b"` matches
`"/a/1/b"` and matches neither `"/a/b"` nor `"/a/1/b/c"`.  (The
unamended claim's non-empty requirement on placeholder segments fails;
see the counterexample.) -/
theorem should_fire_on_path_iff :
    (∀ origin path : List Char,
      should_fire_on_path origin path = true ↔
        (splitSlash path).length = (splitSlash origin).length ∧
          ∀ pr ∈ (splitSlash path).zip (splitSlash origin),
            pr.1 = pr.2 ∨ isPlaceholderSeg pr.2 = true) ∧
    should_fire_on_path patC1 pathMatch = true ∧
    should_fire_on_path patC1 pathShort = false ∧
    should_fire_on_path patC1 pathLong = false :=
  ⟨fun origin path => matchSegs_iff (splitSlash path) (splitSlash origin),
    by decide, by decide, by decide⟩

/-- Counterexample to C1 as stated: the pattern `"/a/<x>/b"` does match
the path `"/a//b"` although the placeholder's corresponding path segment
is empty, contradicting the claimed equivalence. -/
theorem should_fire_on_path_empty_counterexample :
    should_fire_on_path patC1 pathEmptySeg = true ∧
      matchesSpecC1 patC1 pathEmptySeg = false := by
  exact ⟨by decide, by decide⟩

/-- C9: built-in responder renderings — unit yields the default response
(status 200, empty body); a string-like value yields status 200 with the
value as body; an already-built response passes through unchanged; an
integer or boolean yields status 200 with its stringified value as body
(impls modelled from the spec, absent from `src/`); a result renders the
inner value on success and a 500 response carrying the failure's display
text on failure. -/
theorem responder_renderings :
    (∀ req : Request, respond_to_unit req = Except.ok Response.default) ∧
    statusCode Response.default = 200 ∧
    Response.default.body = none ∧
    (∀ (s : String) (req : Request),
      respond_to_str s req
          = Except.ok { Response.default with body := some s } ∧
        statusCode { Response.default with body := some s } = 200) ∧
    (∀ (r : Response) (req : Request),
      respond_to_response r req = Except.ok r) ∧
    (∀ (n : Int) (req : Request),
      respond_to_int n req
        = Except.ok { Response.default with body := some (toString n) }) ∧
    (∀ (b : Bool) (req : Request),
      respond_to_bool b req
        = Except.ok { Response.default with body := some (toString b) }) ∧
    (∀ (α : Type) (inner : α → Request → Except String Response) (a : α)
        (req : Request),
      respond_to_result inner (Except.ok a) req = inner a req) ∧
    (∀ (α : Type) (inner : α → Request → Except String Response)
        (e : String) (req : Request),
      respond_to_result inner (Except.error e) req
          = Except.ok { Response.default with
              status := Status.InternalServerError, body := some e } ∧
        statusCode { Response.default with
            status := Status.InternalServerError, body := some e } = 500) :=
  ⟨fun _ => rfl, rfl, rfl, fun _ _ => ⟨rfl, rfl⟩, fun _ _ => rfl,
    fun _ _ => rfl, fun _ _ => rfl, fun _ _ _ _ => rfl,
    fun _ _ _ _ => ⟨rfl, rfl⟩⟩

/-- C3 (amended): in the generated `handle`, a failing extractor is
`.unwrap()`ed and therefore panics — dispatch produces no response at all
(`none`) rather than the claimed default 200 response; it is a failing
responder conversion that is degraded to `Response::default()`; a
successful extraction and conversion return the converted response. -/
theorem handler_extraction_failure {Q R : Type}
    (from_request : Request → Except String Q) (handler : Q → R)
    (into_response : R → Except String Response) (request : Request) :
    (∀ e, from_request request = Except.error e →
      handler_handle from_request handler into_response request = none) ∧
    (∀ q e, from_request request = Except.ok q →
      into_response (handler q) = Except.error e →
      handler_handle from_request handler into_response request
        = some Response.default) ∧
    (∀ q resp, from_request request = Except.ok q →
      into_response (handler q) = Except.ok resp →
      handler_handle from_request handler into_response request
        = some resp) := by
  unfold handler_handle
  refine ⟨?_, ?_, ?_⟩
  · intro e he
    rw [he]
  · intro q e hq he
    rw [hq]
    show (match into_response (handler q) with
      | Except.ok response => some response
      | Except.error _ => some Response.default) = some Response.default
    rw [he]
  · intro q resp hq hresp
    rw [hq]
    show (match into_response (handler q) with
      | Except.ok response => some response
      | Except.error _ => some Response.default) = some resp
    rw [hresp]

/-- Witness for C3's amended theorem: a missing-header extractor makes
`handle` panic (`none`), while a failing responder conversion yields the
default response. -/
theorem handler_extraction_failure_witness :
    handler_handle (fun _ => Except.error msgMissingHeader)
        (fun (_ : String) => ()) (fun _ => Except.ok Response.default) reqEx
        = none ∧
      handler_handle (fun _ => Except.ok msgMissingHeader)
        (fun (s : String) => s) (fun _ => Except.error msgMissingHeader)
        reqEx = some Response.default :=
  ⟨(handler_extraction_failure (fun _ => Except.error msgMissingHeader)
      (fun (_ : String) => ()) (fun _ => Except.ok Response.default)
      reqEx).1 msgMissingHeader rfl,
    (handler_extraction_failure (fun _ => Except.ok msgMissingHeader)
      (fun (s : String) => s) (fun _ => Except.error msgMissingHeader)
      reqEx).2.1 msgMissingHeader msgMissingHeader rfl rfl⟩

/-- Counterexample to C3 as stated: with a failing extractor, `handle`
returns no response (panic) instead of the claimed default (200, empty)
response. -/
theorem handler_extraction_failure_counterexample :
    handler_handle (fun _ => Except.error msgMissingHeader)
        (fun (_ : String) => ()) (fun _ => Except.ok Response.default) reqEx
        = none ∧
      (none : Option Response) ≠ some Response.default := by
  exact ⟨rfl, by simp⟩

theorem find?_eq_some_iff_first {α : Type} (p : α → Bool) (l : List α)
    (x : α) :
    l.find? p = some x ↔
      ∃ i : Nat, l[i]? = some x ∧ p x = true ∧
        ∀ j : Nat, j < i → ∀ y, l[j]? = some y → p y = false := by
  induction l with
  | nil => simp
  | cons a l ih =>
    by_cases hpa : p a = true
    · rw [List.find?_cons_of_pos _ hpa]
      constructor
      · intro h
        have hx : a = x := Option.some.inj h
        subst hx
        exact ⟨0, by simp, hpa, fun j hj => absurd hj (Nat.not_lt_zero j)⟩
      · rintro ⟨i, hget, hpx, hfirst⟩
        cases i with
        | zero =>
          simp only [List.getElem?_cons_zero] at hget
          rw [hget]
        | succ i =>
          have h0 := hfirst 0 (Nat.succ_pos i) a (by simp)
          rw [hpa] at h0
          exact absurd h0 (by simp)
    · have hpaf : p a = false := by simpa using hpa
      rw [List.find?_cons_of_neg _ (by simp [hpaf])]
      rw [ih]
      constructor
      · rintro ⟨i, hget, hpx, hfirst⟩
        refine ⟨i + 1, by simpa using hget, hpx, ?_⟩
        intro j hj y hy
        cases j with
        | zero =>
          simp only [List.getElem?_cons_zero] at hy
          rw [← Option.some.inj hy, hpaf]
        | succ j =>
          exact hfirst j (by omega) y (by simpa using hy)
      · rintro ⟨i, hget, hpx, hfirst⟩
        cases i with
        | zero =>
          simp only [List.getElem?_cons_zero] at hget
          rw [← Option.some.inj hget] at hpx
          exact absurd hpx (by simp [hpaf])
        | succ i =>
          refine ⟨i, by simpa using hget, hpx, ?_⟩
          intro j hj y hy
          exact hfirst (j + 1) (by omega) y (by simpa using hy)

/-- C4: route selection is the linear scan `find` over the method bucket
in registration order — a route is returned iff it is the first route in
the bucket whose pattern matches the path (no specificity precedence) —
and repeated selection against the same bucket and path returns the same
route. -/
theorem selectRoute_first_match :
    (∀ (bucket : List Route) (path : List Char) (r : Route),
      selectRoute bucket path = some r ↔
        ∃ i : Nat, bucket[i]? = some r ∧
          should_fire_on_path r.metadata.origin path = true ∧
          ∀ j : Nat, j < i → ∀ y, bucket[j]? = some y →
            should_fire_on_path y.metadata.origin path = false) ∧
    (∀ (bucket : List Route) (path : List Char),
      selectRoute bucket path = selectRoute bucket path) :=
  ⟨fun bucket path r =>
    find?_eq_some_iff_first
      (fun route : Route => should_fire_on_path route.metadata.origin path)
      bucket r,
    fun _ _ => rfl⟩

theorem fire_error_shape (route : Route) (req : Request) :
    (∃ resp, (Route.fire route req).1 = Except.ok resp) ∨
      ∃ e, (Route.fire route req).1
        = Except.error (DispatchError.middlewareError e) := by
  rcases h1 : onRequestPhase route.middlewares req 0 with ⟨res1, tr1⟩
  cases res1 with
  | error e =>
    have hfire : Route.fire route req
        = (Except.error (DispatchError.middlewareError e), tr1) := by
      simp only [Route.fire, h1]
    exact Or.inr ⟨e, by rw [hfire]⟩
  | ok req2 =>
    rcases h2 : onResponsePhase route.middlewares (route.service req2) 0 with
      ⟨res2, tr2⟩
    cases res2 with
    | error e =>
      have hfire : Route.fire route req
          = (Except.error (DispatchError.middlewareError e),
              tr1 ++ Event.handlerRun :: tr2) := by
        simp only [Route.fire, h1, h2]
      exact Or.inr ⟨e, by rw [hfire]⟩
    | ok resp2 =>
      have hfire : Route.fire route req
          = (Except.ok resp2, tr1 ++ Event.handlerRun :: tr2) := by
        simp only [Route.fire, h1, h2]
      exact Or.inl ⟨resp2, by rw [hfire]⟩

/-- C6: dispatch returns the `noRouteForMethod` terminal error exactly
when the request's method has no bucket in the route table, and the
`noMatchingRoute` terminal error exactly when the bucket exists but no
route's pattern matches the path; in both cases the trace is empty — no
middleware hook and no handler ran. -/
theorem router_terminal_errors (router : Router) (req : Request) :
    ((Router.call router req).1
        = Except.error (DispatchError.noRouteForMethod req.method)
      ↔ router.routes req.method = none) ∧
    ((Router.call router req).1 = Except.error DispatchError.noMatchingRoute
      ↔ ∃ bucket, router.routes req.method = some bucket ∧
          ∀ route ∈ bucket,
            should_fire_on_path route.metadata.origin req.path = false) ∧
    (((Router.call router req).1
          = Except.error (DispatchError.noRouteForMethod req.method) ∨
        (Router.call router req).1
          = Except.error DispatchError.noMatchingRoute) →
      (Router.call router req).2 = []) := by
  cases hb : router.routes req.method with
  | none =>
    have hcall : Router.call router req
        = (Except.error (DispatchError.noRouteForMethod req.method), []) := by
      simp only [Router.call, hb]
    refine ⟨by simp [hcall, hb], by simp [hcall, hb], by simp [hcall]⟩
  | some bucket =>
    cases hs : selectRoute bucket req.path with
    | none =>
      have hall := List.find?_eq_none.mp hs
      have hcall : Router.call router req
          = (Except.error DispatchError.noMatchingRoute, []) := by
        simp only [Router.call, hb, hs]
      refine ⟨by simp [hcall, hb], ?_, by simp [hcall]⟩
      rw [hcall]
      refine iff_of_true rfl ⟨bucket, rfl, ?_⟩
      intro route hr
      simpa using hall route hr
    | some route =>
      have hs2 : List.find?
          (fun route : Route => should_fire_on_path route.metadata.origin
            req.path) bucket = some route := hs
      have hmem := List.mem_of_find?_eq_some hs2
      have hfires : should_fire_on_path route.metadata.origin req.path
          = true := by simpa using List.find?_some hs2
      have hcall : Router.call router req
          = Route.fire route
              { req with param_segments := route.metadata.param_segments } := by
        simp only [Router.call, hb, hs]
      rcases fire_error_shape route
          { req with param_segments := route.metadata.param_segments } with
        ⟨resp, hsh⟩ | ⟨e, hsh⟩
      · refine ⟨?_, ?_, ?_⟩
        · rw [hcall]
          exact iff_of_false (by simp [hsh]) (by simp [hb])
        · rw [hcall]
          refine iff_of_false (by simp [hsh]) ?_
          rintro ⟨bucket2, hb2, hnone⟩
          have hbb : bucket = bucket2 := Option.some.inj hb2
          subst hbb
          have := hnone route hmem
          rw [hfires] at this
          exact absurd this (by simp)
        · rw [hcall]
          rintro (hc | hc) <;> rw [hsh] at hc <;> exact absurd hc (by simp)
      · refine ⟨?_, ?_, ?_⟩
        · rw [hcall]
          exact iff_of_false (by simp [hsh]) (by simp [hb])
        · rw [hcall]
          refine iff_of_false (by simp [hsh]) ?_
          rintro ⟨bucket2, hb2, hnone⟩
          have hbb : bucket = bucket2 := Option.some.inj hb2
          subst hbb
          have := hnone route hmem
          rw [hfires] at this
          exact absurd this (by simp)
        · rw [hcall]
          rintro (hc | hc) <;> rw [hsh] at hc <;> exact absurd hc (by simp)

theorem onRequestPhase_ok_trace (ms : List Middleware) :
    ∀ (req : Request) (i : Nat) (req2 : Request) (tr : List Event),
      onRequestPhase ms req i = (Except.ok req2, tr) →
      tr = (List.range ms.length).map (fun k => Event.hookReq (i + k)) := by
  induction ms with
  | nil =>
    intro req i req2 tr h
    simp only [onRequestPhase, Prod.mk.injEq] at h
    simp [← h.2]
  | cons m ms ih =>
    intro req i req2 tr h
    rcases hm : m.on_request req with e | r2
    · rw [onRequestPhase, hm] at h
      simp at h
    · rw [onRequestPhase, hm] at h
      have h2 : ((onRequestPhase ms r2 (i + 1)).1,
          Event.hookReq i :: (onRequestPhase ms r2 (i + 1)).2)
          = (Except.ok req2, tr) := h
      rcases hp : onRequestPhase ms r2 (i + 1) with ⟨res, tr2⟩
      rw [hp] at h2
      simp only [Prod.mk.injEq] at h2
      have htr2 := ih r2 (i + 1) req2 tr2 (by rw [hp, h2.1])
      have hadd : ∀ k : Nat, i + 1 + k = i + (k + 1) := fun k => by omega
      rw [← h2.2, htr2]
      simp [List.range_succ_eq_map, List.map_map, Function.comp, hadd]

theorem onResponsePhase_ok_trace (ms : List Middleware) :
    ∀ (resp : Response) (i : Nat) (resp2 : Response) (tr : List Event),
      onResponsePhase ms resp i = (Except.ok resp2, tr) →
      tr = (List.range ms.length).map (fun k => Event.hookResp (i + k)) := by
  induction ms with
  | nil =>
    intro resp i resp2 tr h
    simp only [onResponsePhase, Prod.mk.injEq] at h
    simp [← h.2]
  | cons m ms ih =>
    intro resp i resp2 tr h
    rcases hm : m.on_response resp with e | r2
    · rw [onResponsePhase, hm] at h
      simp at h
    · rw [onResponsePhase, hm] at h
      have h2 : ((onResponsePhase ms r2 (i + 1)).1,
          Event.hookResp i :: (onResponsePhase ms r2 (i + 1)).2)
          = (Except.ok resp2, tr) := h
      rcases hp : onResponsePhase ms r2 (i + 1) with ⟨res, tr2⟩
      rw [hp] at h2
      simp only [Prod.mk.injEq] at h2
      have htr2 := ih r2 (i + 1) resp2 tr2 (by rw [hp, h2.1])
      have hadd : ∀ k : Nat, i + 1 + k = i + (k + 1) := fun k => by omega
      rw [← h2.2, htr2]
      simp [List.range_succ_eq_map, List.map_map, Function.comp, hadd]

theorem onResponsePhase_fst (ms : List Middleware) :
    ∀ (resp : Response) (i : Nat),
      (onResponsePhase ms resp i).1 = applyResponseChain ms resp := by
  induction ms with
  | nil => intro resp i; rfl
  | cons m ms ih =>
    intro resp i
    rcases hm : m.on_response resp with e | r2
    · rw [onResponsePhase, applyResponseChain, hm]
    · rw [onResponsePhase, applyResponseChain, hm]
      exact ih r2 (i + 1)

/-- C7: for a matched route whose hooks all succeed, `Route::fire` runs
the `on_request` hooks in registration order, then the service exactly
once, then the `on_response` hooks in registration order, and returns the
service's response as transformed by the `on_response` chain in that
order. -/
theorem route_fire_hook_order (route : Route) (req req2 : Request)
    (tr1 : List Event) (resp2 : Response) (tr2 : List Event)
    (h1 : onRequestPhase route.middlewares req 0 = (Except.ok req2, tr1))
    (h2 : onResponsePhase route.middlewares (route.service req2) 0
      = (Except.ok resp2, tr2)) :
    Route.fire route req
        = (Except.ok resp2, tr1 ++ Event.handlerRun :: tr2) ∧
      tr1 = (List.range route.middlewares.length).map Event.hookReq ∧
      tr2 = (List.range route.middlewares.length).map Event.hookResp ∧
      applyResponseChain route.middlewares (route.service req2)
        = Except.ok resp2 ∧
      (tr1 ++ Event.handlerRun :: tr2).count Event.handlerRun = 1 := by
  have hfire : Route.fire route req
      = (Except.ok resp2, tr1 ++ Event.handlerRun :: tr2) := by
    simp only [Route.fire, h1, h2]
  have ht1 : tr1
      = (List.range route.middlewares.length).map Event.hookReq := by
    have := onRequestPhase_ok_trace route.middlewares req 0 req2 tr1 h1
    simpa using this
  have ht2 : tr2
      = (List.range route.middlewares.length).map Event.hookResp := by
    have := onResponsePhase_ok_trace route.middlewares (route.service req2) 0
      resp2 tr2 h2
    simpa using this
  have hchain : applyResponseChain route.middlewares (route.service req2)
      = Except.ok resp2 := by
    rw [← onResponsePhase_fst route.middlewares (route.service req2) 0, h2]
  have c1 : List.count Event.handlerRun
      ((List.range route.middlewares.length).map Event.hookReq) = 0 :=
    List.count_eq_zero.mpr (by simp)
  have c2 : List.count Event.handlerRun
      ((List.range route.middlewares.length).map Event.hookResp) = 0 :=
    List.count_eq_zero.mpr (by simp)
  refine ⟨hfire, ht1, ht2, hchain, ?_⟩
  rw [ht1, ht2, List.count_append, c1, List.count_cons_self, c2]

/-- Witness for C7's theorem: two passing middlewares produce the hook
order M1.on_request, M2.on_request, handler, M1.on_response,
M2.on_response. -/
theorem route_fire_hook_order_witness :
    Route.fire routeOrderEx reqEx
      = (Except.ok Response.default,
          [Event.hookReq 0, Event.hookReq 1] ++ Event.handlerRun ::
            [Event.hookResp 0, Event.hookResp 1]) :=
  (route_fire_hook_order routeOrderEx reqEx reqEx
    [Event.hookReq 0, Event.hookReq 1] Response.default
    [Event.hookResp 0, Event.hookResp 1] rfl rfl).1

theorem onRequestPhase_append (xs ys : List Middleware) :
    ∀ (req : Request) (i : Nat),
      onRequestPhase (xs ++ ys) req i
        = (match onRequestPhase xs req i with
           | (Except.error e, tr) => (Except.error e, tr)
           | (Except.ok r2, tr) =>
             ((onRequestPhase ys r2 (i + xs.length)).1,
               tr ++ (onRequestPhase ys r2 (i + xs.length)).2)) := by
  induction xs with
  | nil =>
    intro req i
    simp [onRequestPhase]
  | cons m xs ih =>
    intro req i
    rcases hm : m.on_request req with e | r2
    · have hR : onRequestPhase (m :: xs) req i
          = (Except.error e, [Event.hookReq i]) := by
        rw [onRequestPhase, hm]
      have hL : onRequestPhase ((m :: xs) ++ ys) req i
          = (Except.error e, [Event.hookReq i]) := by
        rw [List.cons_append, onRequestPhase, hm]
      rw [hL, hR]
    · have hR : onRequestPhase (m :: xs) req i
          = ((onRequestPhase xs r2 (i + 1)).1,
              Event.hookReq i :: (onRequestPhase xs r2 (i + 1)).2) := by
        rw [onRequestPhase, hm]
      have hL : onRequestPhase ((m :: xs) ++ ys) req i
          = ((onRequestPhase (xs ++ ys) r2 (i + 1)).1,
              Event.hookReq i :: (onRequestPhase (xs ++ ys) r2 (i + 1)).2) := by
        rw [List.cons_append, onRequestPhase, hm]
      rw [hL, hR, ih r2 (i + 1)]
      have hadd : i + 1 + xs.length = i + (xs.length + 1) := by omega
      rcases hp : onRequestPhase xs r2 (i + 1) with ⟨res, tr⟩
      cases res with
      | error e => simp
      | ok r3 => simp [hadd]

theorem onResponsePhase_append (xs ys : List Middleware) :
    ∀ (resp : Response) (i : Nat),
      onResponsePhase (xs ++ ys) resp i
        = (match onResponsePhase xs resp i with
           | (Except.error e, tr) => (Except.error e, tr)
           | (Except.ok r2, tr) =>
             ((onResponsePhase ys r2 (i + xs.length)).1,
               tr ++ (onResponsePhase ys r2 (i + xs.length)).2)) := by
  induction xs with
  | nil =>
    intro resp i
    simp [onResponsePhase]
  | cons m xs ih =>
    intro resp i
    rcases hm : m.on_response resp with e | r2
    · have hR : onResponsePhase (m :: xs) resp i
          = (Except.error e, [Event.hookResp i]) := by
        rw [onResponsePhase, hm]
      have hL : onResponsePhase ((m :: xs) ++ ys) resp i
          = (Except.error e, [Event.hookResp i]) := by
        rw [List.cons_append, onResponsePhase, hm]
      rw [hL, hR]
    · have hR : onResponsePhase (m :: xs) resp i
          = ((onResponsePhase xs r2 (i + 1)).1,
              Event.hookResp i :: (onResponsePhase xs r2 (i + 1)).2) := by
        rw [onResponsePhase, hm]
      have hL : onResponsePhase ((m :: xs) ++ ys) resp i
          = ((onResponsePhase (xs ++ ys) r2 (i + 1)).1,
              Event.hookResp i ::
                (onResponsePhase (xs ++ ys) r2 (i + 1)).2) := by
        rw [List.cons_append, onResponsePhase, hm]
      rw [hL, hR, ih r2 (i + 1)]
      have hadd : i + 1 + xs.length = i + (xs.length + 1) := by omega
      rcases hp : onResponsePhase xs r2 (i + 1) with ⟨res, tr⟩
      cases res with
      | error e => simp
      | ok r3 => simp [hadd]

/-- C8: if the Kth hook of a phase fails, the remaining hooks of that
phase are not invoked for this request (the trace stops at index K); when
the failing hook is an `on_request` hook the handler is not invoked
either; and dispatch surfaces the hook's error, which the router's
`Service` impl turns into the generic 500 error response. -/
theorem middleware_failure_aborts (route : Route) (req : Request) :
    (∀ (ms1 : List Middleware) (m : Middleware) (ms2 : List Middleware)
        (req1 : Request) (tr1 : List Event) (e : String),
      route.middlewares = ms1 ++ m :: ms2 →
      onRequestPhase ms1 req 0 = (Except.ok req1, tr1) →
      m.on_request req1 = Except.error e →
      Route.fire route req
          = (Except.error (DispatchError.middlewareError e),
              (List.range (ms1.length + 1)).map Event.hookReq) ∧
        serviceWrap (Route.fire route req)
          = (errorResponse (DispatchError.middlewareError e),
              (List.range (ms1.length + 1)).map Event.hookReq)) ∧
    (∀ (ms1 : List Middleware) (m : Middleware) (ms2 : List Middleware)
        (req1 : Request) (trR : List Event) (resp1 : Response)
        (tr1 : List Event) (e : String),
      route.middlewares = ms1 ++ m :: ms2 →
      onRequestPhase route.middlewares req 0 = (Except.ok req1, trR) →
      onResponsePhase ms1 (route.service req1) 0 = (Except.ok resp1, tr1) →
      m.on_response resp1 = Except.error e →
      Route.fire route req
          = (Except.error (DispatchError.middlewareError e),
              trR ++ Event.handlerRun ::
                (List.range (ms1.length + 1)).map Event.hookResp) ∧
        serviceWrap (Route.fire route req)
          = (errorResponse (DispatchError.middlewareError e),
              trR ++ Event.handlerRun ::
                (List.range (ms1.length + 1)).map Event.hookResp)) := by
  constructor
  · intro ms1 m ms2 req1 tr1 e hsplit h1 hm
    have hlen : tr1 = (List.range ms1.length).map Event.hookReq := by
      simpa using onRequestPhase_ok_trace ms1 req 0 req1 tr1 h1
    have hstep : onRequestPhase (m :: ms2) req1 ms1.length
        = (Except.error e, [Event.hookReq ms1.length]) := by
      rw [onRequestPhase, hm]
    have hfail : onRequestPhase (ms1 ++ m :: ms2) req 0
        = (Except.error e, tr1 ++ [Event.hookReq ms1.length]) := by
      rw [onRequestPhase_append ms1 (m :: ms2) req 0, h1]
      simp [hstep]
    have htr : tr1 ++ [Event.hookReq ms1.length]
        = (List.range (ms1.length + 1)).map Event.hookReq := by
      rw [hlen, List.range_succ]
      simp
    have hfire : Route.fire route req
        = (Except.error (DispatchError.middlewareError e),
            tr1 ++ [Event.hookReq ms1.length]) := by
      simp only [Route.fire, hsplit, hfail]
    refine ⟨by rw [hfire, htr], ?_⟩
    rw [hfire, htr]
    rfl
  · intro ms1 m ms2 req1 trR resp1 tr1 e hsplit h1 h2 hm
    have hlen : tr1 = (List.range ms1.length).map Event.hookResp := by
      simpa using
        onResponsePhase_ok_trace ms1 (route.service req1) 0 resp1 tr1 h2
    have hstep : onResponsePhase (m :: ms2) resp1 ms1.length
        = (Except.error e, [Event.hookResp ms1.length]) := by
      rw [onResponsePhase, hm]
    have hfail : onResponsePhase route.middlewares (route.service req1) 0
        = (Except.error e, tr1 ++ [Event.hookResp ms1.length]) := by
      rw [hsplit, onResponsePhase_append ms1 (m :: ms2) (route.service req1) 0,
        h2]
      simp [hstep]
    have htr : tr1 ++ [Event.hookResp ms1.length]
        = (List.range (ms1.length + 1)).map Event.hookResp := by
      rw [hlen, List.range_succ]
      simp
    have hfire : Route.fire route req
        = (Except.error (DispatchError.middlewareError e),
            trR ++ Event.handlerRun ::
              (tr1 ++ [Event.hookResp ms1.length])) := by
      simp only [Route.fire, h1, hfail]
    refine ⟨by rw [hfire, htr], ?_⟩
    rw [hfire, htr]
    rfl

/-- Witness for C8's theorem: with middlewares [pass, failing], the
request-phase failure stops the trace at hook 1 (no handler, no response
hooks), and the response-phase failure stops after the handler at
response hook 1. -/
theorem middleware_failure_aborts_witness :
    Route.fire routeFailReqEx reqEx
        = (Except.error (DispatchError.middlewareError msgBoom),
            (List.range 2).map Event.hookReq) ∧
      Route.fire routeFailRespEx reqEx
        = (Except.error (DispatchError.middlewareError msgBoom),
            [Event.hookReq 0, Event.hookReq 1] ++ Event.handlerRun ::
              (List.range 2).map Event.hookResp) :=
  ⟨((middleware_failure_aborts routeFailReqEx reqEx).1 [mwPass] mwFailReq []
      reqEx [Event.hookReq 0] msgBoom rfl rfl rfl).1,
    ((middleware_failure_aborts routeFailRespEx reqEx).2 [mwPass] mwFailResp
      [] reqEx [Event.hookReq 0, Event.hookReq 1] Response.default
      [Event.hookResp 0] msgBoom rfl rfl rfl rfl).1⟩

/-- Witness for C6's theorem: on the empty route table the lookup fails
with `noRouteForMethod` and the trace is empty. -/
theorem router_terminal_errors_witness :
    (Router.call routerEmptyEx reqEx).2 = [] :=
  (router_terminal_errors routerEmptyEx reqEx).2.2 (Or.inl rfl)

/-- Counterexample to C5 as stated: the pattern `"><x"` contains an
unterminated placeholder (`<x` is never closed), yet registration does
not return the registration error — the stray leading `>` makes the
parser evaluate `slash_counter - 1` at zero first, so parsing panics
(`none`) before the unterminated-placeholder check is reached. -/
theorem registration_unterminated_panic_counterexample :
    hasUnterminated patEarlyGtUnterminated = true ∧
      parse_param_segments patEarlyGtUnterminated = none := by
  exact ⟨by decide, rfl⟩

end Rhttp
